import Mathlib

/-
Verification of the graph-merge engine of snc4onnx
(src/snc4onnx/onnx_network_combine.py, function `combine`).

Modelling notes.
* An onnx_graphsurgeon graph is modelled name-based: after `gs.import_onnx`
  every tensor of a given name is a single shared `Variable` object, so for
  well-formed graphs (where a declared graph input is never also a node
  output) replacing a node-input reference by another `Variable`, or renaming
  a shared `Variable`, is faithfully expressed as rewriting occurrences of
  the corresponding name.
* `gs.Graph.cleanup().toposort()` belongs to the external onnx_graphsurgeon
  library (a collaborator, not code of this repository); it is passed in as
  an abstract function `cleanup : Graph -> Graph`.  Concrete runs instantiate
  it with `id`, which is its actual behaviour on the graphs used there (they
  are already topologically ordered and contain no dead nodes).
* `onnxsim.simplify` is the external simplifier; it is passed in as
  `simpFn : Graph -> Option Graph`, where `none` models the call raising an
  exception (the code catches every exception) and `some g` a normal return
  (the returned `check` flag is ignored by the code).
* `onnx.load` together with the path checks of lines 164-173 is modelled by
  two oracles: `pathOk : String -> Bool` (os.path.exists / isfile /
  extension check) and `loadG : String -> Graph` (the decode itself).
* `onnx.save` is modelled by recording the saved graphs in the result
  (`finalSaved`, `intermediateSaved`); the file-name arithmetic of line 363
  is pure I/O detail and is not modelled.
* Python machine-level details (ANSI colours, printing, sys.exit) are
  modelled by an error sum type `CombineError`: every `sys.exit(1)` branch
  becomes the corresponding error value.
-/

/-- A graphsurgeon node: operator name, input tensor names, output tensor
names (the op type is opaque to the merge engine and omitted). -/
structure NodeG where
  name : String
  inputs : List String
  outputs : List String
deriving Repr, DecidableEq

/-- A graphsurgeon graph: node list, declared graph-input names, declared
graph-output names. -/
structure Graph where
  nodes : List NodeG
  inputs : List String
  outputs : List String
deriving Repr, DecidableEq

/-- Arguments of `combine` that the model tracks (mirrors the Python
signature; logging-only flags are omitted). -/
structure Args where
  srcop_destop : List (List String)
  op_pfxs : List String
  input_paths : List String
  onnx_graphs : List Graph
  output_path : String
  save_intermediate : Bool
deriving Repr, DecidableEq

/-- Every `sys.exit(1)` site of `combine`, by reason. -/
inductive CombineError where
  | noInput
  | atLeastTwo
  | pfxCountMismatch
  | srcopCountMismatch
  | inputNotFound (path : String)
  | dupPfx
  | collision (names : List String)
deriving Repr, DecidableEq

/-- Classifies the argument-validation errors (count mismatches, duplicate
prefixes, too few graphs) as opposed to file or merge errors. -/
def isArgErr : CombineError → Bool
  | .noInput | .atLeastTwo | .pfxCountMismatch | .srcopCountMismatch | .dupPfx => true
  | _ => false

/-- Result of a successful `combine` call: the returned ModelProto, the graph
written to `output_onnx_file_path` (when one was given), and the
intermediate fusion results written when the flag was set. -/
structure CombineResult where
  returned : Graph
  finalSaved : Option Graph
  intermediateSaved : List Graph
deriving Repr, DecidableEq

/-- Node names of a graph (`[graph_node.name for graph_node in nodes]`). -/
def nodeNames (g : Graph) : List String := g.nodes.map NodeG.name

/-- The identifier list one operand contributes to the duplicate-name check
(lines 262-270): node names, then input names, then those output names that
are not also a node name of the same operand. -/
def opNamesOf (g : Graph) : List String :=
  nodeNames g ++ g.inputs ++ g.outputs.filter (fun o => !(nodeNames g).contains o)

/-- The combined identifier list checked for duplicates (line 272). -/
def mergedOpNames (srcM destM : Graph) : List String :=
  opNamesOf srcM ++ opNamesOf destM

/-- Modelled from the spec: the identifier multiset the specification
describes for the duplicate check — node names, input names and output
names, each occurrence counted, with no exclusion of output names that
coincide with a node name.  Used only to compare the spec's description of
the check with the implemented one. -/
def specOpNamesOf (g : Graph) : List String :=
  nodeNames g ++ g.inputs ++ g.outputs

/-- The duplicated identifiers collected by the `collections.Counter` loop of
lines 273-278 (names whose count exceeds one). -/
def collisionList (l : List String) : List String :=
  l.dedup.filter (fun n => decide (1 < l.count n))

/-- The `has_duplicates` helper of lines 194-197. -/
def hasDuplicates (l : List String) : Bool := decide (l.length ≠ l.dedup.length)

/-- `onnx.compose.add_prefix`: prefixes every node name and every tensor name
(graph inputs, graph outputs, node inputs, node outputs). -/
def addPfx (p : String) (g : Graph) : Graph :=
  { nodes := g.nodes.map (fun n =>
      { name := p ++ n.name,
        inputs := n.inputs.map (fun s => p ++ s),
        outputs := n.outputs.map (fun s => p ++ s) }),
    inputs := g.inputs.map (fun s => p ++ s),
    outputs := g.outputs.map (fun s => p ++ s) }

/-- Lines 288-297: transfer all INPUTs, nodes and OUTPUTs of the destination
model into the source model (naive structural union). -/
def unionGraph (srcM destM : Graph) : Graph :=
  { nodes := srcM.nodes ++ destM.nodes,
    inputs := srcM.inputs ++ destM.inputs,
    outputs := srcM.outputs ++ destM.outputs }

/-- Elements at even positions of a list (Python `l[::2]`). -/
def evens : List α → List α
  | [] => []
  | [x] => [x]
  | x :: _ :: xs => x :: evens xs

/-- Elements at odd positions of a list (Python `l[1::2]`). -/
def odds : List α → List α
  | [] => []
  | [_] => []
  | _ :: y :: xs => y :: odds xs

/-- Whether some node of the graph has an output with the given name
(the search of lines 318-326; only the name of the found output matters). -/
def nodeOutHas (g : Graph) (s : String) : Bool :=
  g.nodes.any (fun n => n.outputs.contains s)

/-- `del outputs[out_idx only the first match]` (lines 333-336): remove the
first occurrence of a name from the declared-output list. -/
def deleteFirst (a : String) : List String → List String
  | [] => []
  | x :: xs => if x = a then xs else x :: deleteFirst a xs

/-- The inner rewrite of lines 329-336 over the input slots of one node:
each slot named `dst` is replaced by the source output (so it now bears the
name `src`) and, per replacement, the first declared output named `src` is
deleted.  Returns the rewritten slots and the remaining declared outputs. -/
def spliceSlots (src dst : String) : List String → List String → List String × List String
  | [], outs => ([], outs)
  | i :: is, outs =>
    if i = dst then
      let outs' := deleteFirst src outs
      let r := spliceSlots src dst is outs'
      (src :: r.1, r.2)
    else
      let r := spliceSlots src dst is outs
      (i :: r.1, r.2)

/-- Lines 328-336 over the whole node list, threading the declared-output
list through the per-slot deletions. -/
def spliceNodes (src dst : String) : List NodeG → List String → List NodeG × List String
  | [], outs => ([], outs)
  | n :: ns, outs =>
    let r := spliceSlots src dst n.inputs outs
    let r' := spliceNodes src dst ns r.2
    ({ n with inputs := r.1 } :: r'.1, r'.2)

/-- One correspondence `(srcop_name, destop_name)` of the loop at lines
307-336.  If the source names a declared graph input, every node-input slot
named `dst` is redirected to that input (branch at lines 309-316); otherwise,
if it names some node's output, the slots are redirected to that output and
matching declared outputs are deleted (lines 317-336); otherwise nothing
happens. -/
def spliceOne (g : Graph) (c : String × String) : Graph :=
  if g.inputs.contains c.1 then
    { g with nodes := g.nodes.map (fun n =>
        { n with inputs := n.inputs.map (fun s => if s = c.2 then c.1 else s) }) }
  else if nodeOutHas g c.1 then
    let r := spliceNodes c.1 c.2 g.nodes g.outputs
    { g with nodes := r.1, outputs := r.2 }
  else g

/-- The whole correspondence loop of lines 307-336, in list order. -/
def spliceAll (g : Graph) (cs : List (String × String)) : Graph :=
  cs.foldl spliceOne g

/-- Lines 338-355: delete every declared graph input whose name is not
referenced by any node input. -/
def pruneInputs (g : Graph) : Graph :=
  { g with inputs := g.inputs.filter (fun i => g.nodes.any (fun n => n.inputs.contains i)) }

/-- All node-input slot names of the graph, in order. -/
def allSlots (g : Graph) : List String := (g.nodes.map NodeG.inputs).flatten

/-- The per-node input lists of a graph. -/
def nodesInputs (g : Graph) : List (List String) := g.nodes.map NodeG.inputs

/-- The input-slot name at node index `i`, slot index `j`. -/
def slotAt (g : Graph) (i j : Nat) : Option String :=
  (g.nodes[i]?).bind (fun n => n.inputs[j]?)

/-- One pairwise merge step on two already-prefixed operands: the duplicate
check of lines 262-286 (fatal on any duplicate), then union, correspondence
splicing, input pruning, and the external cleanup/toposort of line 358. -/
def mergeStep (cleanup : Graph → Graph) (srcM destM : Graph)
    (cs : List (String × String)) : Except CombineError Graph :=
  if collisionList (mergedOpNames srcM destM) ≠ [] then
    .error (.collision (collisionList (mergedOpNames srcM destM)))
  else
    .ok (cleanup (pruneInputs (spliceAll (unionGraph srcM destM) cs)))

/-- Python `str.lstrip(chars)`: remove the longest leading run of characters
each of which occurs in `chars` (a character set, not a prefix). -/
def pyLstrip (chars s : String) : String :=
  (s.toList.dropWhile (fun c => chars.toList.contains c)).asString

/-- Lines 374-388: when the combined graph has exactly one declared input,
rename it (and, through the shared `Variable` object, every node-input
reference to it) to `name.lstrip(src_prefix)`; otherwise leave the graph
unchanged. -/
def finalRename (pfx : String) (g : Graph) : Graph :=
  match g.inputs with
  | [x] =>
    let nx := pyLstrip pfx x
    { g with
      nodes := g.nodes.map (fun n =>
        { n with inputs := n.inputs.map (fun s => if s = x then nx else s) }),
      inputs := [nx] }
  | _ => g

/-- The repeat-merge loop of lines 230-372.  `idx` is `model_idx`; `acc` is
the running combined model; `lastPfx` tracks the Python variable
`src_prefix`, whose value after the loop is the one line 383 uses.  When
prefixes are in use, the first operand is prefixed only at step 0 (at later
steps `src_prefix` is the empty string), the destination operand is prefixed
at every step, and the step's correspondence names are prefixed accordingly
(lines 232-256 and 303-304). -/
def mergeChainAux (cleanup : Graph → Graph) (usePre : Bool) (pfxs : List String)
    (srcops : List (List String)) (saveMid : Bool)
    (acc : Graph) (rest : List Graph) (idx : Nat) (lastPfx : String)
    (saves : List Graph) : Except CombineError (Graph × String × List Graph) :=
  match rest with
  | [] => .ok (acc, lastPfx, saves)
  | dest :: rest' =>
    let srcPfx := if usePre then (if idx = 0 then pfxs.getD idx "" ++ "_" else "") else ""
    let destPfx := if usePre then pfxs.getD (idx + 1) "" ++ "_" else ""
    let srcM := if usePre then addPfx srcPfx acc else acc
    let destM := if usePre then addPfx destPfx dest else dest
    let flat := srcops.getD idx []
    let cs := ((evens flat).map (fun s => srcPfx ++ s)).zip
      ((odds flat).map (fun s => destPfx ++ s))
    match mergeStep cleanup srcM destM cs with
    | .error e => .error e
    | .ok merged =>
      let saves' := if saveMid then saves ++ [merged] else saves
      mergeChainAux cleanup usePre pfxs srcops saveMid merged rest' (idx + 1) srcPfx saves'

/-- The argument-validation block of lines 117-204: either-must-be-given,
at-least-two, prefix-count, correspondence-count checks (per mode; in
file-path mode the per-path file check of lines 164-173, which stops at the
first offending path, runs between the at-least-two check and the count
checks), and finally the duplicate-prefix check of lines 193-204 (common to
both modes; folded into each branch here, which is equivalent since the
branches partition). -/
def validateArgs (pathOk : String → Bool) (a : Args) : Except CombineError Unit :=
  if a.input_paths.length = 0 ∧ a.onnx_graphs.length = 0 then .error .noInput
  else if 0 < a.onnx_graphs.length then
    if a.onnx_graphs.length = 1 then .error .atLeastTwo
    else if a.op_pfxs ≠ [] ∧ a.onnx_graphs.length ≠ a.op_pfxs.length then
      .error .pfxCountMismatch
    else if a.onnx_graphs.length - 1 ≠ a.srcop_destop.length then
      .error .srcopCountMismatch
    else if a.op_pfxs ≠ [] ∧ hasDuplicates a.op_pfxs then .error .dupPfx
    else .ok ()
  else
    if a.input_paths.length = 1 then .error .atLeastTwo
    else
      match a.input_paths.find? (fun p => !pathOk p) with
      | some p => .error (.inputNotFound p)
      | none =>
        if a.op_pfxs ≠ [] ∧ a.input_paths.length ≠ a.op_pfxs.length then
          .error .pfxCountMismatch
        else if a.input_paths.length - 1 ≠ a.srcop_destop.length then
          .error .srcopCountMismatch
        else if a.op_pfxs ≠ [] ∧ hasDuplicates a.op_pfxs then .error .dupPfx
        else .ok ()

/-- The `combine` pipeline up to (and excluding) the `onnxsim.simplify`
call: argument validation (lines 117-204), load/normalisation (lines
217-227), the pairwise merge loop, and the single-input rename plus final
cleanup (lines 374-391).  Returns the pre-simplification final graph and the
intermediate fusion results that were persisted. -/
def combineCore (cleanup : Graph → Graph) (loadG : String → Graph)
    (pathOk : String → Bool) (a : Args) :
    Except CombineError (Graph × List Graph) :=
  match validateArgs pathOk a with
  | .error e => .error e
  | .ok _ =>
    let tmp := if 0 < a.onnx_graphs.length then a.onnx_graphs.map cleanup
      else a.input_paths.map (fun p => cleanup (loadG p))
    match tmp with
    | g0 :: g1 :: rest =>
      match mergeChainAux cleanup (!a.op_pfxs.isEmpty) a.op_pfxs a.srcop_destop
          (a.save_intermediate && !(a.output_path == "")) g0 (g1 :: rest) 0 "" [] with
      | .error e => .error e
      | .ok (g, lastPfx, saves) => .ok (cleanup (finalRename lastPfx g), saves)
    | _ => .error .atLeastTwo

/-- The full `combine` call: `combineCore`, then the best-effort simplifier
(lines 393-403; an exception keeps the pre-simplification model), then the
final save (lines 405-407) and the return value (line 413). -/
def combineModel (cleanup : Graph → Graph) (simpFn : Graph → Option Graph)
    (loadG : String → Graph) (pathOk : String → Bool) (a : Args) :
    Except CombineError CombineResult :=
  match combineCore cleanup loadG pathOk a with
  | .error e => .error e
  | .ok (g, saves) =>
    let final := match simpFn g with
      | some g' => g'
      | none => g
    .ok { returned := final,
          finalSaved := if a.output_path ≠ "" then some final else none,
          intermediateSaved := saves }

/-- The pointwise renaming a single correspondence applies to every
node-input slot name: when the source resolves (as a declared graph input or
as some node's output), slots named `dst` are renamed to `src`; otherwise
the correspondence is a no-op. -/
def slotFun (g : Graph) (c : String × String) : String → String :=
  if g.inputs.contains c.1 || nodeOutHas g c.1 then
    fun s => if s = c.2 then c.1 else s
  else fun s => s

/-- The composite renaming a whole correspondence list applies to a slot
name (resolvability is judged against `g`, which is sound because splicing
never changes the declared inputs or the node outputs). -/
def chainFun (g : Graph) (cs : List (String × String)) (s : String) : String :=
  cs.foldl (fun t c => slotFun g c t) s

theorem contains_iff (l : List String) (a : String) : l.contains a = true ↔ a ∈ l :=
  List.elem_iff

theorem deleteFirst_count (a : String) (l : List String) :
    (deleteFirst a l).count a = l.count a - 1 := by
  induction l with
  | nil => rfl
  | cons x xs ih =>
    by_cases hx : x = a
    · subst hx
      simp [deleteFirst, List.count_cons]
    · simp [deleteFirst, hx, List.count_cons, ih]

theorem spliceSlots_fst (src dst : String) (is outs : List String) :
    (spliceSlots src dst is outs).1 = is.map (fun s => if s = dst then src else s) := by
  induction is generalizing outs with
  | nil => rfl
  | cons i is ih =>
    by_cases hi : i = dst <;> simp [spliceSlots, hi, ih]

theorem spliceSlots_snd_count (src dst : String) (is outs : List String) :
    ((spliceSlots src dst is outs).2).count src = outs.count src - is.count dst := by
  induction is generalizing outs with
  | nil => simp [spliceSlots]
  | cons i is ih =>
    by_cases hi : i = dst
    · subst hi
      simp [spliceSlots, ih, deleteFirst_count, List.count_cons, Nat.sub_sub]
      omega
    · simp [spliceSlots, hi, ih, List.count_cons]

theorem spliceSlots_snd_of_not_mem (src dst : String) (is outs : List String)
    (h : dst ∉ is) : (spliceSlots src dst is outs).2 = outs := by
  induction is generalizing outs with
  | nil => rfl
  | cons i is ih =>
    simp only [List.mem_cons, not_or] at h
    have h1 : ¬i = dst := fun hh => h.1 hh.symm
    simp [spliceSlots, h1, ih _ h.2]

theorem spliceNodes_fst (src dst : String) (ns : List NodeG) (outs : List String) :
    (spliceNodes src dst ns outs).1 = ns.map (fun n =>
      { n with inputs := n.inputs.map (fun s => if s = dst then src else s) }) := by
  induction ns generalizing outs with
  | nil => rfl
  | cons n ns ih => simp [spliceNodes, spliceSlots_fst, ih]

theorem spliceNodes_snd_count (src dst : String) (ns : List NodeG) (outs : List String) :
    ((spliceNodes src dst ns outs).2).count src =
      outs.count src - ((ns.map NodeG.inputs).flatten).count dst := by
  induction ns generalizing outs with
  | nil => simp [spliceNodes]
  | cons n ns ih =>
    simp [spliceNodes, ih, spliceSlots_snd_count, List.count_append, Nat.sub_sub]

theorem spliceNodes_snd_of_not_mem (src dst : String) (ns : List NodeG)
    (outs : List String) (h : ∀ n ∈ ns, dst ∉ n.inputs) :
    (spliceNodes src dst ns outs).2 = outs := by
  induction ns generalizing outs with
  | nil => rfl
  | cons n ns ih =>
    simp [spliceNodes, spliceSlots_snd_of_not_mem src dst _ _ (h n (by simp)),
      ih _ (fun m hm => h m (by simp [hm]))]

theorem spliceOne_inputs (g : Graph) (c : String × String) :
    (spliceOne g c).inputs = g.inputs := by
  unfold spliceOne
  split
  · rfl
  · split <;> rfl

theorem spliceOne_nodeNames (g : Graph) (c : String × String) :
    (spliceOne g c).nodes.map NodeG.name = g.nodes.map NodeG.name := by
  unfold spliceOne
  split
  · simp [List.map_map]
  · split
    · simp [spliceNodes_fst, List.map_map]
    · rfl

theorem spliceOne_nodeOutputs (g : Graph) (c : String × String) :
    (spliceOne g c).nodes.map NodeG.outputs = g.nodes.map NodeG.outputs := by
  unfold spliceOne
  split
  · simp [List.map_map]
  · split
    · simp [spliceNodes_fst, List.map_map]
    · rfl

theorem spliceOne_nodesInputs (g : Graph) (c : String × String) :
    nodesInputs (spliceOne g c) = (nodesInputs g).map (List.map (slotFun g c)) := by
  by_cases h1 : c.1 ∈ g.inputs
  · simp [spliceOne, slotFun, h1, nodesInputs, List.map_map]
  · by_cases h2 : nodeOutHas g c.1 = true
    · simp [spliceOne, slotFun, h1, h2, nodesInputs, spliceNodes_fst, List.map_map]
    · simp [spliceOne, slotFun, h1, h2, nodesInputs, List.map_id']

theorem any_map' (f : α → β) (l : List α) (p : β → Bool) :
    (l.map f).any p = l.any (fun a => p (f a)) := by
  induction l with
  | nil => rfl
  | cons x xs ih => simp [ih]

theorem nodeOutHas_eq_of (g g' : Graph)
    (h : g'.nodes.map NodeG.outputs = g.nodes.map NodeG.outputs) (s : String) :
    nodeOutHas g' s = nodeOutHas g s := by
  unfold nodeOutHas
  rw [← any_map' NodeG.outputs g'.nodes, ← any_map' NodeG.outputs g.nodes, h]

theorem slotFun_congr (g g' : Graph) (c : String × String)
    (hi : g'.inputs = g.inputs)
    (ho : g'.nodes.map NodeG.outputs = g.nodes.map NodeG.outputs) :
    slotFun g' c = slotFun g c := by
  unfold slotFun
  rw [hi, nodeOutHas_eq_of g g' ho]

theorem slotFun_spliceOne (g : Graph) (c c' : String × String) :
    slotFun (spliceOne g c) c' = slotFun g c' :=
  slotFun_congr g (spliceOne g c) c' (spliceOne_inputs g c) (spliceOne_nodeOutputs g c)

theorem chainFun_spliceOne (g : Graph) (c : String × String)
    (cs : List (String × String)) :
    chainFun (spliceOne g c) cs = chainFun g cs := by
  funext s
  unfold chainFun
  induction cs generalizing s with
  | nil => rfl
  | cons c' cs ih =>
    rw [List.foldl_cons, List.foldl_cons, ih, congrFun (slotFun_spliceOne g c c') s]

theorem spliceAll_cons (g : Graph) (c : String × String) (cs : List (String × String)) :
    spliceAll g (c :: cs) = spliceAll (spliceOne g c) cs := rfl

theorem spliceAll_inputs (g : Graph) (cs : List (String × String)) :
    (spliceAll g cs).inputs = g.inputs := by
  induction cs generalizing g with
  | nil => rfl
  | cons c cs ih => rw [spliceAll_cons, ih, spliceOne_inputs]

theorem spliceAll_nodeNames (g : Graph) (cs : List (String × String)) :
    (spliceAll g cs).nodes.map NodeG.name = g.nodes.map NodeG.name := by
  induction cs generalizing g with
  | nil => rfl
  | cons c cs ih => rw [spliceAll_cons, ih, spliceOne_nodeNames]

theorem spliceAll_nodeOutputs (g : Graph) (cs : List (String × String)) :
    (spliceAll g cs).nodes.map NodeG.outputs = g.nodes.map NodeG.outputs := by
  induction cs generalizing g with
  | nil => rfl
  | cons c cs ih => rw [spliceAll_cons, ih, spliceOne_nodeOutputs]

theorem spliceAll_nodesInputs (g : Graph) (cs : List (String × String)) :
    nodesInputs (spliceAll g cs) = (nodesInputs g).map (List.map (chainFun g cs)) := by
  induction cs generalizing g with
  | nil =>
    have h : chainFun g [] = fun s => s := funext (fun _ => rfl)
    simp [spliceAll, nodesInputs, h, List.map_id']
  | cons c cs ih =>
    rw [spliceAll_cons, ih, chainFun_spliceOne, spliceOne_nodesInputs, List.map_map]
    apply List.map_congr_left
    intro l _
    simp only [Function.comp_apply, List.map_map]
    apply List.map_congr_left
    intro s _
    rfl

theorem allSlots_spliceAll (g : Graph) (cs : List (String × String)) :
    allSlots (spliceAll g cs) = (allSlots g).map (chainFun g cs) := by
  have h := spliceAll_nodesInputs g cs
  unfold nodesInputs at h
  unfold allSlots
  rw [h, ← List.map_flatten]

theorem slotAt_spliceAll (g : Graph) (cs : List (String × String)) (i j : Nat) :
    slotAt (spliceAll g cs) i j = (slotAt g i j).map (chainFun g cs) := by
  have h := spliceAll_nodesInputs g cs
  unfold nodesInputs at h
  have h2 := congrArg (fun l => l[i]?) h
  simp only [List.getElem?_map] at h2
  unfold slotAt
  cases hg : g.nodes[i]? with
  | none =>
    rw [hg] at h2
    simp only [Option.map_none'] at h2
    rw [Option.map_eq_none'.mp h2]
    rfl
  | some n =>
    rw [hg] at h2
    cases hg' : (spliceAll g cs).nodes[i]? with
    | none => rw [hg'] at h2; simp at h2
    | some n' =>
      rw [hg'] at h2
      simp only [Option.map_some'] at h2
      have hin : n'.inputs = n.inputs.map (chainFun g cs) := by
        injection h2
      show n'.inputs[j]? = (n.inputs[j]?).map (chainFun g cs)
      rw [hin, List.getElem?_map]

theorem map_rename_id (a b : String) (l : List String) (h : b ∉ l) :
    l.map (fun s => if s = b then a else s) = l := by
  induction l with
  | nil => rfl
  | cons x xs ih =>
    simp only [List.mem_cons, not_or] at h
    have hx : ¬x = b := fun hh => h.1 hh.symm
    simp [hx, ih h.2]

theorem not_mem_node_inputs (g : Graph) (s : String)
    (h : s ∉ allSlots g) : ∀ n ∈ g.nodes, s ∉ n.inputs := by
  intro n hn hmem
  apply h
  simp only [allSlots, List.mem_flatten, List.mem_map]
  exact ⟨n.inputs, ⟨n, hn, rfl⟩, hmem⟩

theorem map_nodes_rename_id (a b : String) (ns : List NodeG)
    (h : ∀ n ∈ ns, b ∉ n.inputs) :
    ns.map (fun n =>
      { n with inputs := n.inputs.map (fun s => if s = b then a else s) }) = ns := by
  conv_rhs => rw [← List.map_id' ns]
  exact List.map_congr_left (fun n hn => by rw [map_rename_id a b n.inputs (h n hn)])

theorem spliceOne_noop (g : Graph) (c : String × String) (h : c.2 ∉ allSlots g) :
    spliceOne g c = g := by
  have hn := not_mem_node_inputs g c.2 h
  unfold spliceOne
  split
  · rw [map_nodes_rename_id c.1 c.2 g.nodes hn]
  · split
    · show Graph.mk (spliceNodes c.1 c.2 g.nodes g.outputs).1 g.inputs
        (spliceNodes c.1 c.2 g.nodes g.outputs).2 = g
      rw [spliceNodes_fst, spliceNodes_snd_of_not_mem c.1 c.2 g.nodes g.outputs hn,
        map_nodes_rename_id c.1 c.2 g.nodes hn]
    · rfl

theorem spliceAll_noop (g : Graph) (cs : List (String × String))
    (h : ∀ c ∈ cs, c.2 ∉ allSlots g) : spliceAll g cs = g := by
  induction cs with
  | nil => rfl
  | cons c cs ih =>
    rw [spliceAll_cons, spliceOne_noop g c (h c (by simp))]
    exact ih (fun c' hc' => h c' (by simp [hc']))

theorem pruneInputs_nodes (g : Graph) : (pruneInputs g).nodes = g.nodes := rfl

theorem pruneInputs_outputs (g : Graph) : (pruneInputs g).outputs = g.outputs := rfl

theorem mem_pruneInputs (g : Graph) (s : String) :
    s ∈ (pruneInputs g).inputs ↔ s ∈ g.inputs ∧ s ∈ allSlots g := by
  unfold pruneInputs
  simp only [List.mem_filter]
  apply and_congr_right
  intro _
  rw [List.any_eq_true]
  constructor
  · rintro ⟨n, hn, hc⟩
    simp only [allSlots, List.mem_flatten, List.mem_map]
    exact ⟨n.inputs, ⟨n, hn, rfl⟩, (contains_iff _ _).mp hc⟩
  · intro hs
    simp only [allSlots, List.mem_flatten, List.mem_map] at hs
    obtain ⟨l, ⟨n, hn, rfl⟩, hmem⟩ := hs
    exact ⟨n, hn, (contains_iff _ _).mpr hmem⟩

theorem chainFun_nil (g : Graph) (s : String) : chainFun g [] s = s := rfl

theorem chainFun_cons (g : Graph) (c : String × String)
    (cs : List (String × String)) (s : String) :
    chainFun g (c :: cs) s = chainFun g cs (slotFun g c s) := rfl

theorem slotFun_ne_dest (g : Graph) (c : String × String) (s : String)
    (h : s ≠ c.2) : slotFun g c s = s := by
  unfold slotFun
  split
  · simp [h]
  · rfl

theorem slotFun_cases (g : Graph) (c : String × String) (s : String) :
    slotFun g c s = c.1 ∨ slotFun g c s = s := by
  unfold slotFun
  split
  · by_cases hs : s = c.2 <;> simp [hs]
  · right; rfl

theorem slotFun_resolved (g : Graph) (c : String × String)
    (h : c.1 ∈ g.inputs ∨ nodeOutHas g c.1 = true) :
    slotFun g c = fun s => if s = c.2 then c.1 else s := by
  unfold slotFun
  rw [if_pos]
  rw [Bool.or_eq_true]
  cases h with
  | inl h => exact Or.inl ((contains_iff _ _).mpr h)
  | inr h => exact Or.inr h

theorem chainFun_fixed (g : Graph) (cs : List (String × String)) (s : String)
    (h : ∀ c ∈ cs, c.2 ≠ s) : chainFun g cs s = s := by
  induction cs with
  | nil => rfl
  | cons c cs ih =>
    rw [chainFun_cons, slotFun_ne_dest g c s (fun hh => h c (by simp) hh.symm)]
    exact ih (fun c' hc' => h c' (by simp [hc']))

theorem chainFun_ne (g : Graph) (cs : List (String × String)) (d : String)
    (h : ∀ c ∈ cs, c.1 ≠ d) : ∀ t, t ≠ d → chainFun g cs t ≠ d := by
  induction cs with
  | nil => exact fun t ht => ht
  | cons c cs ih =>
    intro t ht
    rw [chainFun_cons]
    apply ih (fun c' hc' => h c' (by simp [hc']))
    rcases slotFun_cases g c t with hc | hc
    · rw [hc]; exact h c (by simp)
    · rw [hc]; exact ht

theorem not_mem_allSlots_spliceOne (g : Graph) (c : String × String)
    (hres : c.1 ∈ g.inputs ∨ nodeOutHas g c.1 = true) (hne : c.1 ≠ c.2) :
    c.2 ∉ allSlots (spliceOne g c) := by
  intro hmem
  rw [show spliceOne g c = spliceAll g [c] from rfl, allSlots_spliceAll] at hmem
  simp only [List.mem_map] at hmem
  obtain ⟨s, _, hs⟩ := hmem
  rw [chainFun_cons, chainFun_nil, slotFun_resolved g c hres] at hs
  by_cases h2 : s = c.2
  · simp only [h2, if_pos] at hs; exact hne hs
  · simp only [h2, if_neg, if_false] at hs

theorem collisionList_ne_nil (l : List String) :
    collisionList l ≠ [] ↔ ∃ n, 1 < l.count n := by
  unfold collisionList
  constructor
  · intro h
    obtain ⟨n, hn⟩ := List.exists_mem_of_ne_nil _ h
    have hm := List.mem_filter.mp hn
    exact ⟨n, by simpa using hm.2⟩
  · rintro ⟨n, hn⟩ h
    have hmem : n ∈ l.dedup :=
      List.mem_dedup.mpr (List.count_pos_iff.mp (by omega))
    have hf : n ∈ l.dedup.filter (fun n => decide (1 < l.count n)) :=
      List.mem_filter.mpr ⟨hmem, by simpa using hn⟩
    rw [h] at hf
    exact absurd hf (List.not_mem_nil n)

theorem spliceOne_branch2 (g : Graph) (c : String × String)
    (h1 : c.1 ∉ g.inputs) (h2 : nodeOutHas g c.1 = true) :
    spliceOne g c = ⟨(spliceNodes c.1 c.2 g.nodes g.outputs).1, g.inputs,
      (spliceNodes c.1 c.2 g.nodes g.outputs).2⟩ := by
  unfold spliceOne
  rw [if_neg (fun hh => h1 ((contains_iff _ _).mp hh)), if_pos h2]

theorem finalRename_single (p : String) (ns : List NodeG) (x : String)
    (outs : List String) :
    finalRename p ⟨ns, [x], outs⟩ = ⟨ns.map (fun n =>
      { n with inputs := n.inputs.map (fun s => if s = x then pyLstrip p x else s) }),
      [pyLstrip p x], outs⟩ := rfl

theorem finalRename_not_single (p : String) (g : Graph)
    (h : g.inputs.length ≠ 1) : finalRename p g = g := by
  obtain ⟨ns, ins, outs⟩ := g
  rcases ins with _ | ⟨x, rest⟩
  · rfl
  rcases rest with _ | ⟨y, rest'⟩
  · simp at h
  · rfl

/-- C7: the input-pruning pass of lines 338-355 removes exactly the declared
graph inputs that no node input references: a name is in the pruned input
list precisely when it was a declared input and some node input bears it,
and the pass touches neither the nodes nor the declared outputs (it is a
total function with no failure path). -/
theorem C7_prune_exact (g : Graph) (s : String) :
    (s ∈ (pruneInputs g).inputs ↔ s ∈ g.inputs ∧ s ∈ allSlots g) ∧
    (pruneInputs g).nodes = g.nodes ∧ (pruneInputs g).outputs = g.outputs :=
  ⟨mem_pruneInputs g s, rfl, rfl⟩

/-- C4: when a correspondence's source is the output of some node of the
working graph (and, per the data-model invariant that a graph input has no
producing node, not a declared input), its name occurs in the declared
outputs (once, per the uniqueness invariant), and the destination matches at
least one node input, the splice of lines 307-336 removes the source name
from the declared outputs unconditionally at that step. -/
theorem C4_output_removed (g : Graph) (src dst : String)
    (h1 : src ∉ g.inputs) (h2 : nodeOutHas g src = true)
    (h3 : dst ∈ allSlots g) (h4 : g.outputs.count src = 1) :
    src ∉ (spliceOne g (src, dst)).outputs := by
  rw [spliceOne_branch2 g (src, dst) h1 h2]
  show src ∉ (spliceNodes src dst g.nodes g.outputs).2
  have hc := spliceNodes_snd_count src dst g.nodes g.outputs
  rw [h4] at hc
  have hpos : 0 < ((g.nodes.map NodeG.inputs).flatten).count dst :=
    List.count_pos_iff.mpr h3
  exact List.count_eq_zero.mp (by omega)

/-- Closed witness for C4 at a concrete graph: node A produces `src`, which
is also a declared output, node B consumes `dst`; after the splice, `src` is
gone from the declared outputs. -/
theorem C4_output_removed_witness :
    "src" ∉ (spliceOne ⟨[⟨"A", ["i"], ["src"]⟩, ⟨"B", ["dst"], ["ob"]⟩],
      ["i", "dst"], ["src", "ob"]⟩ ("src", "dst")).outputs :=
  C4_output_removed _ "src" "dst" (by decide) (by decide) (by decide) (by decide)

/-- C1 counterexample: the end-to-end scenario of the claim — two graphs,
prefixes `g1`/`g2`, and a correspondence whose destination `g2_Z_in` (after
prefixing) is not the input of any node — completes successfully and returns
an output graph; no error of any kind (in particular no ResolutionError) is
raised, refuting the claim that such an invocation must fail.  The second
conjunct records that the destination really is absent from the working
graph's node inputs.  `cleanup` is instantiated with `id`, the actual
behaviour of `gs.cleanup().toposort()` on these already-canonical graphs. -/
theorem C1_counterexample :
    (combineModel id (fun g => some g) (fun _ => Graph.mk [] [] []) (fun _ => true)
      ⟨[["A_out", "Z_in"]], ["g1", "g2"], [],
        [⟨[⟨"A", ["in1"], ["A_out"]⟩], ["in1"], ["A_out"]⟩,
         ⟨[⟨"B", ["B_in"], ["B_out"]⟩], ["B_in"], ["B_out"]⟩], "", false⟩).isOk = true ∧
    "g2_Z_in" ∉ allSlots (unionGraph
      (addPfx "g1_" ⟨[⟨"A", ["in1"], ["A_out"]⟩], ["in1"], ["A_out"]⟩)
      (addPfx "g2_" ⟨[⟨"B", ["B_in"], ["B_out"]⟩], ["B_in"], ["B_out"]⟩)) := by
  decide

/-- C1 amended: a correspondence whose destination matches no node input, or
whose source resolves neither as a declared graph input nor as any node's
output, is silently skipped — the splice loop leaves the working graph
completely unchanged at that correspondence, raises no error, and the merge
proceeds with the remaining correspondences. -/
theorem C1_amended_skip (g : Graph) (src dst : String)
    (h : dst ∉ allSlots g ∨ (src ∉ g.inputs ∧ nodeOutHas g src = false)) :
    spliceOne g (src, dst) = g := by
  cases h with
  | inl h => exact spliceOne_noop g (src, dst) h
  | inr h =>
    unfold spliceOne
    rw [if_neg (fun hh => h.1 ((contains_iff _ _).mp hh)), if_neg (by simp [h.2])]

/-- Closed witness for the amended C1: a correspondence aiming at the
nonexistent destination `zz` leaves the graph untouched. -/
theorem C1_amended_skip_witness :
    spliceOne ⟨[⟨"A", ["i"], ["o"]⟩], ["i"], ["o"]⟩ ("o", "zz") =
      ⟨[⟨"A", ["i"], ["o"]⟩], ["i"], ["o"]⟩ :=
  C1_amended_skip _ "o" "zz" (Or.inl (by decide))

/-- C2 counterexample: in the first operand the identifier `x` is both a
node name and a declared graph-output name, so the multiset the claim
describes contains `x` twice (and `y` twice on the other operand); yet the
merge proceeds without any collision error, because lines 264/269 exclude
output names that coincide with a node name of the same operand from the
check. -/
theorem C2_counterexample :
    (∃ n, 1 < ((specOpNamesOf ⟨[⟨"x", ["i"], ["x"]⟩], ["i"], ["x"]⟩ ++
      specOpNamesOf ⟨[⟨"y", ["j"], ["y"]⟩], ["j"], ["y"]⟩).count n)) ∧
    (combineModel id (fun g => some g) (fun _ => Graph.mk [] [] []) (fun _ => true)
      ⟨[["x", "j"]], [], [],
        [⟨[⟨"x", ["i"], ["x"]⟩], ["i"], ["x"]⟩,
         ⟨[⟨"y", ["j"], ["y"]⟩], ["j"], ["y"]⟩], "", false⟩).isOk = true :=
  ⟨⟨"x", by decide⟩, by decide⟩

/-- C2 amended: the duplicate-identifier check counts node names, graph-input
names, and only those graph-output names that are not also a node name of
the same operand (an identifier used both as a node name and as a declared
output of the same operand is counted once); the merge step fails exactly
when some identifier of that filtered multiset occurs more than once, the
failure is the collision error carrying the duplicated names, and no merged
graph is produced in that case. -/
theorem C2_amended_collision (cleanup : Graph → Graph) (srcM destM : Graph)
    (cs : List (String × String)) :
    ((∃ e, mergeStep cleanup srcM destM cs = .error e) ↔
      ∃ n, 1 < (mergedOpNames srcM destM).count n) ∧
    (∀ e, mergeStep cleanup srcM destM cs = .error e →
      e = .collision (collisionList (mergedOpNames srcM destM))) := by
  unfold mergeStep
  by_cases h : collisionList (mergedOpNames srcM destM) ≠ []
  · rw [if_pos h]
    refine ⟨⟨fun _ => (collisionList_ne_nil _).mp h, fun _ => ⟨_, rfl⟩⟩, ?_⟩
    intro e he
    injection he with he'
    exact he'.symm
  · rw [if_neg h]
    refine ⟨⟨?_, ?_⟩, ?_⟩
    · rintro ⟨e, he⟩
      simp at he
    · intro hn
      exact absurd ((collisionList_ne_nil _).mpr hn) h
    · intro e he
      simp at he

/-- C3 counterexample: the step's correspondence list targets the same
destination `d` twice, first from `o1` and then from `o2`; in the merged
result node B's input is `o1` — the value installed by the FIRST
correspondence, not the last — because the first rewrite renames the slot
away from `d`, so the second correspondence finds no slot named `d`.
`cleanup` is `id`, the actual behaviour on these canonical graphs. -/
theorem C3_counterexample :
    (combineModel id (fun g => some g) (fun _ => Graph.mk [] [] []) (fun _ => true)
      ⟨[["o1", "d", "o2", "d"]], [], [],
        [⟨[⟨"A1", ["i1"], ["o1"]⟩, ⟨"A2", ["i1"], ["o2"]⟩], ["i1"], ["o1", "o2"]⟩,
         ⟨[⟨"B", ["d"], ["ob"]⟩], ["d"], ["ob"]⟩], "", false⟩).toOption.map
      (fun r => r.returned.nodes.map NodeG.inputs) =
      some [["i1"], ["i1"], ["o1"]] ∧ ("o1" : String) ≠ "o2" := by
  constructor
  · decide
  · decide

/-- C3 amended: first write wins.  When several correspondences of one merge
step share the destination `dst` and the first of them has a source that
resolves (as a graph input or as a node output) and differs from `dst`, the
first correspondence renames every slot named `dst` away from `dst`, so all
later correspondences for `dst` are no-ops: splicing the whole list equals
splicing just the first pair. -/
theorem C3_amended_first_write (g : Graph) (src dst : String)
    (cs : List (String × String))
    (hres : src ∈ g.inputs ∨ nodeOutHas g src = true) (hne : src ≠ dst)
    (hlater : ∀ c ∈ cs, c.2 = dst) :
    spliceAll g ((src, dst) :: cs) = spliceOne g (src, dst) := by
  rw [spliceAll_cons]
  apply spliceAll_noop
  intro c hc
  rw [hlater c hc]
  exact not_mem_allSlots_spliceOne g (src, dst) hres hne

/-- Closed witness for the amended C3 on the counterexample's working graph:
splicing both correspondences equals splicing only the first. -/
theorem C3_amended_first_write_witness :
    spliceAll ⟨[⟨"A1", ["i1"], ["o1"]⟩, ⟨"A2", ["i1"], ["o2"]⟩, ⟨"B", ["d"], ["ob"]⟩],
      ["i1", "d"], ["o1", "o2", "ob"]⟩ [("o1", "d"), ("o2", "d")] =
    spliceOne ⟨[⟨"A1", ["i1"], ["o1"]⟩, ⟨"A2", ["i1"], ["o2"]⟩, ⟨"B", ["d"], ["ob"]⟩],
      ["i1", "d"], ["o1", "o2", "ob"]⟩ ("o1", "d") :=
  C3_amended_first_write _ "o1" "d" [("o2", "d")] (Or.inr (by decide)) (by decide)
    (by decide)

theorem chainFun_append (g : Graph) (l1 l2 : List (String × String)) (s : String) :
    chainFun g (l1 ++ l2) s = chainFun g l2 (chainFun g l1 s) := by
  unfold chainFun
  rw [List.foldl_append]

theorem slotFun_apply_resolved (g : Graph) (c : String × String) (t : String)
    (h : c.1 ∈ g.inputs ∨ nodeOutHas g c.1 = true) :
    slotFun g c t = if t = c.2 then c.1 else t := by
  rw [slotFun_resolved g c h]

/-- C6 counterexample: splice `(x, x)` where `x` is a declared graph input
of the right operand and resolves in the working graph (as that very input):
after splicing and input pruning, `x` is still among the merged graph's
declared inputs (node B still consumes it), refuting the claim that the
destination always disappears from the declared inputs.  The first two
conjuncts record the claim's premises, the last the surviving input list. -/
theorem C6_counterexample :
    ("x" ∈ (Graph.mk [⟨"B", ["x"], ["ob"]⟩] ["x"] ["ob"]).inputs) ∧
    ("x" ∈ (unionGraph ⟨[⟨"A", ["i1"], ["o1"]⟩], ["i1"], ["o1"]⟩
      ⟨[⟨"B", ["x"], ["ob"]⟩], ["x"], ["ob"]⟩).inputs) ∧
    (combineModel id (fun g => some g) (fun _ => Graph.mk [] [] []) (fun _ => true)
      ⟨[["x", "x"]], [], [],
        [⟨[⟨"A", ["i1"], ["o1"]⟩], ["i1"], ["o1"]⟩,
         ⟨[⟨"B", ["x"], ["ob"]⟩], ["x"], ["ob"]⟩], "", false⟩).toOption.map
      (fun r => r.returned.inputs) = some ["i1", "x"] := by
  refine ⟨by decide, by decide, by decide⟩

/-- C6 amended: splicing `(src, dst)` where `dst` was a declared graph input
of the right operand and `src` resolves in the working graph removes `dst`
from the declared inputs after pruning and redirects every formerly-`dst`
node-input slot to `src` — provided `src` and `dst` are distinct names and
the other correspondences of the step do not interfere with `dst` (none
names `dst` as source or destination) nor re-target `src` (no later one has
destination `src`). -/
theorem C6_amended_splice (gl gr : Graph) (src dst : String)
    (cs1 cs2 : List (String × String))
    (hdst : dst ∈ gr.inputs)
    (hres : src ∈ (unionGraph gl gr).inputs ∨
      nodeOutHas (unionGraph gl gr) src = true)
    (hne : src ≠ dst)
    (h1 : ∀ c ∈ cs1, c.2 ≠ dst)
    (h2 : ∀ c ∈ cs2, c.1 ≠ dst ∧ c.2 ≠ dst ∧ c.2 ≠ src) :
    dst ∉ (pruneInputs (spliceAll (unionGraph gl gr)
      (cs1 ++ (src, dst) :: cs2))).inputs ∧
    ∀ i j, slotAt (unionGraph gl gr) i j = some dst →
      slotAt (pruneInputs (spliceAll (unionGraph gl gr)
        (cs1 ++ (src, dst) :: cs2))) i j = some src := by
  have hnotdst : ∀ s, chainFun (unionGraph gl gr)
      (cs1 ++ (src, dst) :: cs2) s ≠ dst := by
    intro s
    rw [chainFun_append, chainFun_cons]
    apply chainFun_ne (unionGraph gl gr) cs2 dst (fun c hc => (h2 c hc).1)
    rw [slotFun_apply_resolved (unionGraph gl gr) (src, dst) _ hres]
    by_cases ht : chainFun (unionGraph gl gr) cs1 s = dst
    · rw [if_pos ht]; exact hne
    · rw [if_neg ht]; exact ht
  constructor
  · intro hmem
    rw [mem_pruneInputs] at hmem
    have hsl := hmem.2
    rw [allSlots_spliceAll] at hsl
    simp only [List.mem_map] at hsl
    obtain ⟨s, _, hs⟩ := hsl
    exact hnotdst s hs
  · intro i j hij
    show slotAt (spliceAll (unionGraph gl gr) (cs1 ++ (src, dst) :: cs2)) i j =
      some src
    rw [slotAt_spliceAll, hij, Option.map_some']
    rw [chainFun_append, chainFun_fixed (unionGraph gl gr) cs1 dst
      (fun c hc => h1 c hc), chainFun_cons,
      slotFun_apply_resolved (unionGraph gl gr) (src, dst) dst hres, if_pos rfl,
      chainFun_fixed (unionGraph gl gr) cs2 src (fun c hc => (h2 c hc).2.2)]

/-- Closed witness for the amended C6: the sole correspondence `(o1, x)`
splices node A's output into node B's input `x`, which was the right
operand's declared graph input; afterwards `x` is pruned from the inputs and
B's slot holds `o1`. -/
theorem C6_amended_splice_witness :
    ("x" ∉ (pruneInputs (spliceAll (unionGraph ⟨[⟨"A", ["i1"], ["o1"]⟩], ["i1"], ["o1"]⟩
      ⟨[⟨"B", ["x"], ["ob"]⟩], ["x"], ["ob"]⟩)
      ([] ++ ("o1", "x") :: []))).inputs) ∧
    ∀ i j, slotAt (unionGraph ⟨[⟨"A", ["i1"], ["o1"]⟩], ["i1"], ["o1"]⟩
        ⟨[⟨"B", ["x"], ["ob"]⟩], ["x"], ["ob"]⟩) i j = some "x" →
      slotAt (pruneInputs (spliceAll (unionGraph ⟨[⟨"A", ["i1"], ["o1"]⟩], ["i1"], ["o1"]⟩
        ⟨[⟨"B", ["x"], ["ob"]⟩], ["x"], ["ob"]⟩)
        ([] ++ ("o1", "x") :: []))) i j = some "o1" :=
  C6_amended_splice ⟨[⟨"A", ["i1"], ["o1"]⟩], ["i1"], ["o1"]⟩
    ⟨[⟨"B", ["x"], ["ob"]⟩], ["x"], ["ob"]⟩ "o1" "x" [] []
    (by decide) (Or.inr (by decide)) (by decide) (by simp) (by simp)

/-- C5 counterexample: a completed two-graph merge chain with prefixes
`init`/`g2` whose final graph has exactly one declared input, originally
named `tensor` in the first operand (so `init_tensor` after prefixing).
Stripping the namespace prefix `init_` would restore `tensor`, but the code
uses Python `str.lstrip`, which removes the longest leading run of
characters drawn from the prefix's character set, yielding `ensor`.
`cleanup` is `id`, the actual behaviour on these canonical graphs. -/
theorem C5_counterexample :
    (combineModel id (fun g => some g) (fun _ => Graph.mk [] [] []) (fun _ => true)
      ⟨[["out1", "in2"]], ["init", "g2"], [],
        [⟨[⟨"A", ["tensor"], ["out1"]⟩], ["tensor"], ["out1"]⟩,
         ⟨[⟨"B", ["in2"], ["out2"]⟩], ["in2"], ["out2"]⟩], "", false⟩).toOption.map
      (fun r => r.returned.inputs) = some ["ensor"] ∧
    ("ensor" : String) ≠ "tensor" := by
  refine ⟨by decide, by decide⟩

/-- C5 amended: when the final graph has exactly one declared input, the
rename of lines 374-388 replaces that input's name, and every node-input
slot bearing it, by `name.lstrip(src_prefix)` — the name with its longest
leading run of characters drawn from the last pairwise step's source prefix
removed (which can remove more than the prefix itself) — and touches nothing
else: declared outputs, node names, node outputs, and all other slots are
unchanged; with zero or two or more declared inputs the graph is returned
unchanged. -/
theorem C5_amended_rename (p : String) (g : Graph) :
    (g.inputs.length ≠ 1 → finalRename p g = g) ∧
    (∀ x, g.inputs = [x] →
      (finalRename p g).inputs = [pyLstrip p x] ∧
      (finalRename p g).outputs = g.outputs ∧
      (finalRename p g).nodes.map NodeG.name = g.nodes.map NodeG.name ∧
      (finalRename p g).nodes.map NodeG.outputs = g.nodes.map NodeG.outputs ∧
      nodesInputs (finalRename p g) =
        (nodesInputs g).map (List.map (fun s => if s = x then pyLstrip p x else s))) := by
  constructor
  · exact finalRename_not_single p g
  · intro x hx
    obtain ⟨ns, ins, outs⟩ := g
    simp only [] at hx
    subst hx
    rw [finalRename_single]
    refine ⟨rfl, rfl, ?_, ?_, ?_⟩
    · simp [List.map_map]
    · simp [List.map_map]
    · simp [nodesInputs, List.map_map]

/-- Closed witness for the amended C5 at a concrete single-input graph with
prefix `init_`: the input `init_tensor` becomes `ensor` everywhere it is
consumed and nothing else changes. -/
theorem C5_amended_rename_witness :
    (finalRename "init_" ⟨[⟨"A", ["init_tensor"], ["o"]⟩], ["init_tensor"], ["o"]⟩).inputs
      = [pyLstrip "init_" "init_tensor"] ∧
    (finalRename "init_" ⟨[⟨"A", ["init_tensor"], ["o"]⟩], ["init_tensor"], ["o"]⟩).outputs
      = (Graph.mk [⟨"A", ["init_tensor"], ["o"]⟩] ["init_tensor"] ["o"]).outputs ∧
    (finalRename "init_" ⟨[⟨"A", ["init_tensor"], ["o"]⟩], ["init_tensor"], ["o"]⟩).nodes.map
      NodeG.name = (Graph.mk [⟨"A", ["init_tensor"], ["o"]⟩] ["init_tensor"] ["o"]).nodes.map
      NodeG.name ∧
    (finalRename "init_" ⟨[⟨"A", ["init_tensor"], ["o"]⟩], ["init_tensor"], ["o"]⟩).nodes.map
      NodeG.outputs = (Graph.mk [⟨"A", ["init_tensor"], ["o"]⟩] ["init_tensor"] ["o"]).nodes.map
      NodeG.outputs ∧
    nodesInputs (finalRename "init_" ⟨[⟨"A", ["init_tensor"], ["o"]⟩], ["init_tensor"], ["o"]⟩) =
      (nodesInputs (Graph.mk [⟨"A", ["init_tensor"], ["o"]⟩] ["init_tensor"] ["o"])).map
      (List.map (fun s => if s = "init_tensor" then pyLstrip "init_" "init_tensor" else s)) :=
  (C5_amended_rename "init_" ⟨[⟨"A", ["init_tensor"], ["o"]⟩], ["init_tensor"], ["o"]⟩).2
    "init_tensor" rfl

theorem combineModel_of_validate_error (cleanup : Graph → Graph)
    (simpFn : Graph → Option Graph) (loadG : String → Graph)
    (pathOk : String → Bool) (a : Args) (e : CombineError)
    (h : validateArgs pathOk a = .error e) :
    combineModel cleanup simpFn loadG pathOk a = .error e := by
  unfold combineModel combineCore
  rw [h]

theorem validateArgs_argError (pathOk : String → Bool) (a : Args)
    (hok : 0 < a.onnx_graphs.length ∨ ∀ p ∈ a.input_paths, pathOk p = true)
    (hbad : (0 < a.onnx_graphs.length ∧ (a.onnx_graphs.length = 1 ∨
        (a.op_pfxs ≠ [] ∧ a.onnx_graphs.length ≠ a.op_pfxs.length) ∨
        a.onnx_graphs.length - 1 ≠ a.srcop_destop.length ∨
        (a.op_pfxs ≠ [] ∧ hasDuplicates a.op_pfxs = true))) ∨
      (a.onnx_graphs.length = 0 ∧ (a.input_paths.length ≤ 1 ∨
        (a.op_pfxs ≠ [] ∧ a.input_paths.length ≠ a.op_pfxs.length) ∨
        a.input_paths.length - 1 ≠ a.srcop_destop.length ∨
        (a.op_pfxs ≠ [] ∧ hasDuplicates a.op_pfxs = true)))) :
    ∃ e, isArgErr e = true ∧ validateArgs pathOk a = .error e := by
  unfold validateArgs
  by_cases h0 : a.input_paths.length = 0 ∧ a.onnx_graphs.length = 0
  · exact ⟨.noInput, rfl, by rw [if_pos h0]⟩
  rw [if_neg h0]
  by_cases hg : 0 < a.onnx_graphs.length
  · rw [if_pos hg]
    by_cases c1 : a.onnx_graphs.length = 1
    · exact ⟨.atLeastTwo, rfl, by rw [if_pos c1]⟩
    rw [if_neg c1]
    by_cases c2 : a.op_pfxs ≠ [] ∧ a.onnx_graphs.length ≠ a.op_pfxs.length
    · exact ⟨.pfxCountMismatch, rfl, by rw [if_pos c2]⟩
    rw [if_neg c2]
    by_cases c3 : a.onnx_graphs.length - 1 ≠ a.srcop_destop.length
    · exact ⟨.srcopCountMismatch, rfl, by rw [if_pos c3]⟩
    rw [if_neg c3]
    by_cases c4 : a.op_pfxs ≠ [] ∧ hasDuplicates a.op_pfxs = true
    · exact ⟨.dupPfx, rfl, by rw [if_pos c4]⟩
    exfalso
    rcases hbad with ⟨_, hcases⟩ | ⟨hzero, _⟩
    · rcases hcases with h | h | h | h
      · exact c1 h
      · exact c2 h
      · exact c3 h
      · exact c4 h
    · omega
  · rw [if_neg hg]
    have hpaths : ∀ p ∈ a.input_paths, pathOk p = true := hok.resolve_left hg
    have hfind : a.input_paths.find? (fun p => !pathOk p) = none :=
      List.find?_eq_none.mpr (fun p hp => by simp [hpaths p hp])
    by_cases c1 : a.input_paths.length = 1
    · exact ⟨.atLeastTwo, rfl, by rw [if_pos c1]⟩
    rw [if_neg c1, hfind]
    by_cases c2 : a.op_pfxs ≠ [] ∧ a.input_paths.length ≠ a.op_pfxs.length
    · exact ⟨.pfxCountMismatch, rfl, by rw [if_pos c2]⟩
    rw [if_neg c2]
    by_cases c3 : a.input_paths.length - 1 ≠ a.srcop_destop.length
    · exact ⟨.srcopCountMismatch, rfl, by rw [if_pos c3]⟩
    rw [if_neg c3]
    by_cases c4 : a.op_pfxs ≠ [] ∧ hasDuplicates a.op_pfxs = true
    · exact ⟨.dupPfx, rfl, by rw [if_pos c4]⟩
    exfalso
    rcases hbad with ⟨hpos, _⟩ | ⟨hzero, hcases⟩
    · exact hg hpos
    · rcases hcases with h | h | h | h
      · have hp0 : a.input_paths.length ≠ 0 := fun hh => h0 ⟨hh, hzero⟩
        omega
      · exact c2 h
      · exact c3 h
      · exact c4 h

/-- C8 counterexample: file-path mode with two paths, a correspondence-count
violation (0 lists instead of 1), and a filesystem on which the first path
fails the existence/extension check (`pathOk` constantly false): the
invocation fails with the file error naming `a.onnx`, not with an argument
error, because the per-path check of lines 164-173 runs before the
prefix-count and correspondence-count checks. -/
theorem C8_counterexample :
    (combineModel id (fun g => some g) (fun _ => Graph.mk [] [] []) (fun _ => false)
      ⟨[], [], ["a.onnx", "b.onnx"], [], "", false⟩ =
      .error (.inputNotFound "a.onnx")) ∧
    isArgErr (.inputNotFound "a.onnx") = false ∧
    ((["a.onnx", "b.onnx"] : List String).length - 1 ≠
      ([] : List (List String)).length) := by
  refine ⟨rfl, rfl, by decide⟩

/-- C8 amended: an invocation with fewer than two input graphs, a
correspondence-list count different from (number of graphs - 1), or a
prefix list with wrong count or duplicates fails fatally, before any graph
is decoded (the outcome is the same error for every loader), with an
argument error — provided that, in file-path mode, every supplied path
passes the file check; a failing path is otherwise reported first (after
the fewer-than-two check but before the count and duplicate-prefix checks)
as a file error rather than an argument error. -/
theorem C8_amended_argcheck (cleanup : Graph → Graph)
    (simpFn : Graph → Option Graph) (pathOk : String → Bool) (a : Args)
    (hok : 0 < a.onnx_graphs.length ∨ ∀ p ∈ a.input_paths, pathOk p = true)
    (hbad : (0 < a.onnx_graphs.length ∧ (a.onnx_graphs.length = 1 ∨
        (a.op_pfxs ≠ [] ∧ a.onnx_graphs.length ≠ a.op_pfxs.length) ∨
        a.onnx_graphs.length - 1 ≠ a.srcop_destop.length ∨
        (a.op_pfxs ≠ [] ∧ hasDuplicates a.op_pfxs = true))) ∨
      (a.onnx_graphs.length = 0 ∧ (a.input_paths.length ≤ 1 ∨
        (a.op_pfxs ≠ [] ∧ a.input_paths.length ≠ a.op_pfxs.length) ∨
        a.input_paths.length - 1 ≠ a.srcop_destop.length ∨
        (a.op_pfxs ≠ [] ∧ hasDuplicates a.op_pfxs = true)))) :
    ∃ e, isArgErr e = true ∧
      ∀ loadG : String → Graph,
        combineModel cleanup simpFn loadG pathOk a = .error e := by
  obtain ⟨e, he1, he2⟩ := validateArgs_argError pathOk a hok hbad
  exact ⟨e, he1, fun loadG =>
    combineModel_of_validate_error cleanup simpFn loadG pathOk a e he2⟩

/-- Closed witness for the amended C8: a single in-memory graph (fewer than
two) makes the invocation fail with an argument error for every loader. -/
theorem C8_amended_argcheck_witness :
    ∃ e, isArgErr e = true ∧
      ∀ loadG : String → Graph,
        combineModel id (fun g => some g) loadG (fun _ => true)
          ⟨[], [], [], [⟨[⟨"A", ["i"], ["o"]⟩], ["i"], ["o"]⟩], "", false⟩ =
          .error e :=
  C8_amended_argcheck id (fun g => some g) (fun _ => true)
    ⟨[], [], [], [⟨[⟨"A", ["i"], ["o"]⟩], ["i"], ["o"]⟩], "", false⟩
    (Or.inl (by decide)) (Or.inl ⟨by decide, Or.inl (by decide)⟩)

/-- C9: the external simplifier influences the pipeline only through its
value on the single pre-simplification final graph — so it is invoked
exactly once, only on the final merged and canonicalized graph — and when it
raises (modelled as `none`) the failure is non-fatal: the pre-simplification
graph is retained, persisted to the output path when one is given, and
returned to the caller. -/
theorem C9_simplify_once (cleanup : Graph → Graph) (loadG : String → Graph)
    (pathOk : String → Bool) (a : Args) (g : Graph) (saves : List Graph)
    (h : combineCore cleanup loadG pathOk a = .ok (g, saves)) :
    (∀ f1 f2 : Graph → Option Graph, f1 g = f2 g →
      combineModel cleanup f1 loadG pathOk a =
        combineModel cleanup f2 loadG pathOk a) ∧
    combineModel cleanup (fun _ => none) loadG pathOk a =
      .ok ⟨g, if a.output_path ≠ "" then some g else none, saves⟩ := by
  constructor
  · intro f1 f2 hf
    unfold combineModel
    rw [h]
    simp only [hf]
  · unfold combineModel
    rw [h]

/-- Closed witness for C9: a merge with an output path and a raising
simplifier still returns and persists the pre-simplification merged
graph. -/
theorem C9_simplify_once_witness :
    combineModel id (fun _ => none) (fun _ => Graph.mk [] [] []) (fun _ => true)
      ⟨[["o1", "x"]], [], [], [⟨[⟨"A", ["i1"], ["o1"]⟩], ["i1"], ["o1"]⟩,
        ⟨[⟨"B", ["x"], ["ob"]⟩], ["x"], ["ob"]⟩], "out.onnx", false⟩ =
      .ok ⟨⟨[⟨"A", ["i1"], ["o1"]⟩, ⟨"B", ["o1"], ["ob"]⟩], ["i1"], ["ob"]⟩,
        some ⟨[⟨"A", ["i1"], ["o1"]⟩, ⟨"B", ["o1"], ["ob"]⟩], ["i1"], ["ob"]⟩, []⟩ :=
  (C9_simplify_once id (fun _ => Graph.mk [] [] []) (fun _ => true)
    ⟨[["o1", "x"]], [], [], [⟨[⟨"A", ["i1"], ["o1"]⟩], ["i1"], ["o1"]⟩,
      ⟨[⟨"B", ["x"], ["ob"]⟩], ["x"], ["ob"]⟩], "out.onnx", false⟩
    ⟨[⟨"A", ["i1"], ["o1"]⟩, ⟨"B", ["o1"], ["ob"]⟩], ["i1"], ["ob"]⟩ [] rfl).2

/-- C10: when in-memory graphs are supplied (`onnx_graphs` non-empty) the
file-path argument is ignored entirely: the result is identical for any two
path lists, any two filesystem oracles, and any two loaders — the paths are
never existence-checked and never loaded, and the outcome depends only on
the in-memory graphs and the remaining arguments. -/
theorem C10_paths_ignored (cleanup : Graph → Graph) (simpFn : Graph → Option Graph)
    (loadG1 loadG2 : String → Graph) (pathOk1 pathOk2 : String → Bool)
    (sd : List (List String)) (pf : List String) (p1 p2 : List String)
    (gs : List Graph) (out : String) (sv : Bool) (h : gs ≠ []) :
    combineModel cleanup simpFn loadG1 pathOk1 ⟨sd, pf, p1, gs, out, sv⟩ =
    combineModel cleanup simpFn loadG2 pathOk2 ⟨sd, pf, p2, gs, out, sv⟩ := by
  have hg : 0 < gs.length := List.length_pos.mpr h
  have h1 : ¬(p1.length = 0 ∧ gs.length = 0) := fun hc => by omega
  have h2 : ¬(p2.length = 0 ∧ gs.length = 0) := fun hc => by omega
  unfold combineModel combineCore validateArgs
  dsimp only
  rw [if_neg h1, if_neg h2, if_pos hg, if_pos hg, if_pos hg, if_pos hg]

/-- Closed witness for C10: with two in-memory graphs, a nonexistent path
list under a filesystem where nothing exists gives the same result as an
empty path list under one where everything exists. -/
theorem C10_paths_ignored_witness :
    combineModel id (fun g => some g) (fun _ => Graph.mk [] [] []) (fun _ => false)
      ⟨[["o1", "x"]], [], ["ghost.onnx"],
        [⟨[⟨"A", ["i1"], ["o1"]⟩], ["i1"], ["o1"]⟩,
         ⟨[⟨"B", ["x"], ["ob"]⟩], ["x"], ["ob"]⟩], "", false⟩ =
    combineModel id (fun g => some g)
      (fun _ => ⟨[⟨"A", ["i1"], ["o1"]⟩], ["i1"], ["o1"]⟩) (fun _ => true)
      ⟨[["o1", "x"]], [], [],
        [⟨[⟨"A", ["i1"], ["o1"]⟩], ["i1"], ["o1"]⟩,
         ⟨[⟨"B", ["x"], ["ob"]⟩], ["x"], ["ob"]⟩], "", false⟩ :=
  C10_paths_ignored id (fun g => some g) (fun _ => Graph.mk [] [] [])
    (fun _ => ⟨[⟨"A", ["i1"], ["o1"]⟩], ["i1"], ["o1"]⟩) (fun _ => false)
    (fun _ => true) [["o1", "x"]] [] ["ghost.onnx"] []
    [⟨[⟨"A", ["i1"], ["o1"]⟩], ["i1"], ["o1"]⟩,
     ⟨[⟨"B", ["x"], ["ob"]⟩], ["x"], ["ob"]⟩] "" false (by decide)

/-- Closed witness for the amended C2 at concrete operands that share the
node name `n`: the collision characterization holds there. -/
theorem C2_amended_collision_witness :
    ((∃ e, mergeStep id ⟨[⟨"n", ["i"], ["o"]⟩], ["i"], ["o"]⟩
        ⟨[⟨"n", ["j"], ["p"]⟩], ["j"], ["p"]⟩ [] = .error e) ↔
      ∃ m, 1 < (mergedOpNames ⟨[⟨"n", ["i"], ["o"]⟩], ["i"], ["o"]⟩
        ⟨[⟨"n", ["j"], ["p"]⟩], ["j"], ["p"]⟩).count m) ∧
    (∀ e, mergeStep id ⟨[⟨"n", ["i"], ["o"]⟩], ["i"], ["o"]⟩
        ⟨[⟨"n", ["j"], ["p"]⟩], ["j"], ["p"]⟩ [] = .error e →
      e = .collision (collisionList (mergedOpNames ⟨[⟨"n", ["i"], ["o"]⟩], ["i"], ["o"]⟩
        ⟨[⟨"n", ["j"], ["p"]⟩], ["j"], ["p"]⟩))) :=
  C2_amended_collision id ⟨[⟨"n", ["i"], ["o"]⟩], ["i"], ["o"]⟩
    ⟨[⟨"n", ["j"], ["p"]⟩], ["j"], ["p"]⟩ []

/-- Closed witness for C7 at a concrete graph: the used input `i` is kept,
and the characterization holds for the unused name `u`. -/
theorem C7_prune_exact_witness :
    (("u" : String) ∈ (pruneInputs ⟨[⟨"A", ["i"], ["o"]⟩], ["i", "u"], ["o"]⟩).inputs ↔
      ("u" : String) ∈ (Graph.mk [⟨"A", ["i"], ["o"]⟩] ["i", "u"] ["o"]).inputs ∧
      ("u" : String) ∈ allSlots ⟨[⟨"A", ["i"], ["o"]⟩], ["i", "u"], ["o"]⟩) ∧
    (pruneInputs ⟨[⟨"A", ["i"], ["o"]⟩], ["i", "u"], ["o"]⟩).nodes =
      (Graph.mk [⟨"A", ["i"], ["o"]⟩] ["i", "u"] ["o"]).nodes ∧
    (pruneInputs ⟨[⟨"A", ["i"], ["o"]⟩], ["i", "u"], ["o"]⟩).outputs =
      (Graph.mk [⟨"A", ["i"], ["o"]⟩] ["i", "u"] ["o"]).outputs :=
  C7_prune_exact ⟨[⟨"A", ["i"], ["o"]⟩], ["i", "u"], ["o"]⟩ "u"
